import Mathlib

/-!
Verification of the local/distributed lock manager in
`src/src/mongo/db/s/dist_lock_manager.cpp`.

The development shallowly embeds the lock-table data model and the operations
`DistLockManager::lock`, `DistLockManager::lockDirectLocally`,
`DistLockManager::ScopedLock` (move construction and destruction),
`DistLockManager::ScopedDistLock` (move construction, `moveToAnotherThread`,
`assignNewOpCtx`, destruction) and the `create`/`get` singleton registry.

Two complementary embeddings are used:

* `lockDirectLocallySeq` / `DistLockManager.lock`: the whole C++ call as one
  function on the lock table (single-caller semantics); the outcome of the
  condition wait is an explicit input (interrupted or not, and the table
  contents decide woken vs timed out), matching the tri-state wait primitive.
* `LockStep` / `LockReachable`: a small-step transition system in which each
  mutex-protected region of the C++ is one atomic step, so that interleavings
  of several callers (including waiters cancelled mid-wait) are covered.
-/

/-- Error codes observable from `lockDirectLocally`/`lock`.  `LockBusy` comes
from the `uasserted(ErrorCodes::LockBusy, ...)` call; `Interrupted` stands for
the interruption error thrown out of `waitForConditionOrInterruptFor` when the
waiting operation context is cancelled. -/
inductive ErrorCode where
  | LockBusy : ErrorCode
  | Interrupted : ErrorCode
  | RemoteError : ErrorCode
deriving DecidableEq, Repr

/-- An error status: code plus diagnostic message. -/
structure DLError where
  code : ErrorCode
  msg : String
deriving DecidableEq, Repr

/-- Modelled from the spec: the `NSLock` struct is declared in
`mongo/db/s/dist_lock_manager.h`, which is not under `src/`; only its uses in
`dist_lock_manager.cpp` are.  Per spec section 3 (`LocalWaitQueue`) it carries
the holder reason, the held flag and the waiter count (the condition variable
is represented by the step relation, not by data).  Spec section 4.1 states
that creating the entry marks it held with the given reason, so construction
sets `isInProgress := true`.  The constructor must also register the creating
holder in `numWaiting` (initial value 1): the destructor in the `.cpp`
unconditionally decrements `numWaiting` and erases the entry exactly when the
count reaches 0, which is only coherent if the holder itself is counted. -/
structure NSLock where
  reason : String
  isInProgress : Bool
  numWaiting : Int
deriving DecidableEq, Repr

/-- `NSLock(reason)` constructor, as used by
`_inProgressMap.try_emplace(ns, std::make_shared<NSLock>(reason))`. -/
def NSLock.make (reason : String) : NSLock :=
  ⟨reason, true, 1⟩

/-- The `_inProgressMap`: a map from namespace strings to `NSLock` entries,
embedded as a function to `Option`. -/
def TableF : Type := String → Option NSLock

/-- Map update/insert at one key. -/
def upd (t : TableF) (ns : String) (e : NSLock) : TableF :=
  fun x => if x = ns then some e else t x

/-- Map erase at one key (`_inProgressMap.erase(_ns)`). -/
def eraseKey (t : TableF) (ns : String) : TableF :=
  fun x => if x = ns then none else t x

/-- The empty `_inProgressMap`. -/
def emptyTable : TableF := fun _ => none

/-- The single-quote character used by the C++ format string. -/
def squote : String := String.singleton (Char.ofNat 39)

/-- `Milliseconds::toString()` for a millisecond count. -/
def msToString (ms : Nat) : String := toString ms ++ "ms"

/-- The exact `LockBusy` message built at lines 136-139 of
`dist_lock_manager.cpp`:
`"Failed to acquire DDL lock for namespace '{}' after {} that is currently locked with reason '{}'"_format(ns, waitFor.toString(), reason)`.
Note that the third format argument is the `reason` PARAMETER of
`lockDirectLocally` (the failing caller's own reason), not `nsLock->reason`. -/
def lockBusyMsg (ns : String) (waitFor : Nat) (reason : String) : String :=
  "Failed to acquire DDL lock for namespace " ++ squote ++ ns ++ squote ++ " after "
    ++ msToString waitFor ++ " that is currently locked with reason "
    ++ squote ++ reason ++ squote

/-- Message of the interruption error propagated out of
`waitForConditionOrInterruptFor`. -/
def interruptedMsg : String := "operation was interrupted"

/-- Character-list prefix test (auxiliary to `containsStr`). -/
def leadsWith : List Char → List Char → Bool
  | _, [] => true
  | [], _ :: _ => false
  | a :: as, b :: bs => a == b && leadsWith as bs

/-- Character-list substring test (auxiliary to `containsStr`). -/
def containsChars (hay pat : List Char) : Bool :=
  match hay with
  | [] => leadsWith [] pat
  | _ :: rest => leadsWith hay pat || containsChars rest pat

/-- Substring test used to state facts about diagnostic messages. -/
def containsStr (hay pat : String) : Bool :=
  containsChars hay.toList pat.toList

/-- `DistLockManager::ScopedLock` (lines 150-177): the RAII guard for the
local slot.  `hasLockManager` models whether `_lockManager` is non-null. -/
structure ScopedLock where
  ns : String
  reason : String
  hasLockManager : Bool
deriving DecidableEq, Repr

/-- `ScopedLock(ScopedLock&& other)` (lines 155-160): the new guard takes the
fields; `other._lockManager = nullptr`.  Returns (new guard, moved-from
other). -/
def ScopedLock.moveCtor (other : ScopedLock) : ScopedLock × ScopedLock :=
  (⟨other.ns, other.reason, other.hasLockManager⟩, ⟨other.ns, other.reason, false⟩)

/-- The table mutation performed by `~ScopedLock` (lines 164-174) once the
entry has been found: `numWaiting--`, `reason.clear()`, `isInProgress = false`,
`cvLocked.notify_one()` (represented by the step relation), then
`_inProgressMap.erase(_ns)` exactly when `numWaiting == 0`. -/
def releaseTable (t : TableF) (ns : String) (e : NSLock) : TableF :=
  if e.numWaiting - 1 = 0 then eraseKey t ns
  else upd t ns ⟨"", false, e.numWaiting - 1⟩

/-- `~ScopedLock()` (lines 162-177).  When `_lockManager` is null (moved-from
guard) nothing happens.  Otherwise the destructor dereferences
`_inProgressMap.find(_ns)` without checking it: if the entry is absent that is
undefined behavior, modelled as `none`. -/
def ScopedLock.destruct (sl : ScopedLock) (t : TableF) : Option TableF :=
  if sl.hasLockManager then
    match t sl.ns with
    | none => none
    | some e => some (releaseTable t sl.ns e)
  else some t

/-- `DistLockManager::lockDirectLocally` (lines 120-148) as one atomic call
(single-caller semantics; the interleaved semantics is `LockStep` below).
The condition wait `opCtx->waitForConditionOrInterruptFor(cv, lock, waitFor,
pred)` first evaluates `pred = !isInProgress`; if the predicate holds it
returns true; otherwise, with no concurrent caller to wake it, the wait ends
either by interruption of `opCtx` (throws, here the `interrupted` input) or by
expiry of `waitFor` (returns `pred()`, still false).  On either throw the
`ScopeGuard` runs `numWaiting--` (written `+ 1 - 1` to record the increment
performed before the wait). -/
def lockDirectLocallySeq (t : TableF) (ns reason : String) (waitFor : Nat)
    (interrupted : Bool) : Except DLError ScopedLock × TableF :=
  match t ns with
  | none =>
      (Except.ok ⟨ns, reason, true⟩, upd t ns (NSLock.make reason))
  | some e =>
      if e.isInProgress = false then
        (Except.ok ⟨ns, reason, true⟩, upd t ns ⟨reason, true, e.numWaiting + 1⟩)
      else if interrupted then
        (Except.error ⟨ErrorCode.Interrupted, interruptedMsg⟩,
         upd t ns ⟨e.reason, e.isInProgress, e.numWaiting + 1 - 1⟩)
      else
        (Except.error ⟨ErrorCode.LockBusy, lockBusyMsg ns waitFor reason⟩,
         upd t ns ⟨e.reason, e.isInProgress, e.numWaiting + 1 - 1⟩)

/-- `DistLockManager::ScopedDistLock` (lines 50-83): composes the operation
context pointer, the lock name, the local guard and the `_lockManager`
pointer. -/
structure ScopedDistLock where
  opCtx : Option Nat
  lockName : String
  scopedLock : ScopedLock
  hasLockManager : Bool
deriving DecidableEq, Repr

/-- `ScopedDistLock(ScopedDistLock&& other)` (lines 65-72): delegates to the
main constructor (moving `_scopedLock`), then nulls `other._opCtx` and
`other._lockManager`.  Returns (new guard, moved-from other). -/
def ScopedDistLock.moveCtor (other : ScopedDistLock) : ScopedDistLock × ScopedDistLock :=
  (⟨other.opCtx, other.lockName, (ScopedLock.moveCtor other.scopedLock).1,
     other.hasLockManager⟩,
   ⟨none, other.lockName, (ScopedLock.moveCtor other.scopedLock).2, false⟩)

/-- `ScopedDistLock::moveToAnotherThread` (lines 74-78): move `*this` into a
local guard, null its `_opCtx`, return it.  Returns (returned guard, what
`*this` became). -/
def ScopedDistLock.moveToAnotherThread (self : ScopedDistLock) :
    ScopedDistLock × ScopedDistLock :=
  let p := ScopedDistLock.moveCtor self
  (⟨none, p.1.lockName, p.1.scopedLock, p.1.hasLockManager⟩, p.2)

/-- Result type of operations that `invariant(...)` on entry: a failed
invariant aborts the process rather than returning an error. -/
inductive InvResult (α : Type) where
  | ok (val : α) : InvResult α
  | invariantFailure : InvResult α
deriving DecidableEq, Repr

/-- `ScopedDistLock::assignNewOpCtx` (lines 80-83): `invariant(!_opCtx)` then
`_opCtx = opCtx`. -/
def ScopedDistLock.assignNewOpCtx (self : ScopedDistLock) (opCtx : Nat) :
    InvResult ScopedDistLock :=
  match self.opCtx with
  | some _ => InvResult.invariantFailure
  | none => InvResult.ok ⟨some opCtx, self.lockName, self.scopedLock, self.hasLockManager⟩

/-- `~ScopedDistLock()` (lines 59-63) followed by destruction of the
`_scopedLock` member: if `_lockManager` is non-null, `unlock` is invoked on
the remote backend (counted in `remoteUnlocks`); then the local guard's
destructor runs.  `none` signals the undefined dereference inside
`~ScopedLock`. -/
def ScopedDistLock.destruct (g : ScopedDistLock) (t : TableF) (remoteUnlocks : Nat) :
    Option (TableF × Nat) :=
  let r := if g.hasLockManager then remoteUnlocks + 1 else remoteUnlocks
  match g.scopedLock.destruct t with
  | none => none
  | some t2 => some (t2, r)

/-- `DistLockManager::kDefaultLockTimeout` (5 minutes, in milliseconds). -/
def kDefaultLockTimeout : Nat := 5 * 60 * 1000

/-- `DistLockManager::kSingleLockAttemptTimeout` (0 milliseconds). -/
def kSingleLockAttemptTimeout : Nat := 0

/-- Result of one `DistLockManager::lock` call: the status-or-guard, the
final lock table, and whether the remote `lockDirect` call was attempted. -/
structure LockResult where
  result : Except DLError ScopedDistLock
  table : TableF
  remoteCalled : Bool

namespace DistLockManager

/-- `DistLockManager::lock` (lines 101-118).  `lockDirect` (the remote
acquisition) is a pure virtual implemented by backends outside `src/`; per
spec sections 2 and 6 it is an external collaborator, so its outcome is the
`remoteResult` input (`none` = OK).  If `lockDirectLocally` throws, the
`DBException` is converted to a status and returned with no remote call.  If
the remote call fails, its status is returned and the `boost::optional`
holding the local guard is destroyed on scope exit, releasing the local slot.
On success the local guard is moved into the returned `ScopedDistLock` (the
moved-from guard in the optional destructs as a no-op). -/
def lock (t : TableF) (opCtx : Nat) (name reason : String) (waitFor : Nat)
    (interrupted : Bool) (remoteResult : Option DLError) : LockResult :=
  match lockDirectLocallySeq t name reason waitFor interrupted with
  | (Except.error e, t1) => ⟨Except.error e, t1, false⟩
  | (Except.ok sl, t1) =>
      match remoteResult with
      | some e => ⟨Except.error e, (sl.destruct t1).getD t1, true⟩
      | none => ⟨Except.ok ⟨some opCtx, name, sl, true⟩, t1, true⟩

/-- Modelled from the spec: the `ServiceContext` decoration
`getDistLockManager` (declared via `declareDecoration`, outside `src/`) is,
per spec section 6, a process-wide registry holding at most one coordinator
instance; embedded as an `Option` over instance identifiers. -/
def create (registered : Option Nat) (inst : Nat) : InvResult (Option Nat) :=
  match registered with
  | some _ => InvResult.invariantFailure
  | none => InvResult.ok (some inst)

/-- `DistLockManager::get` (lines 87-89): returns the registered instance. -/
def get (registered : Option Nat) : Option Nat := registered

end DistLockManager

/-!
## Interleaved semantics

Each constructor of `LockStep` is one mutex-protected region of the C++ code,
executed atomically on behalf of one caller.  A caller's progress through
`lockDirectLocally` and `~ScopedLock` is recorded as a `Phase`.
-/

/-- The observable control state of one caller.

* `idle`: not inside `lockDirectLocally` and owning no lock.
* `waiting ns reason waitFor`: has executed `nsLock->numWaiting++` and is
  blocked in `waitForConditionOrInterruptFor` (lines 131-134).
* `holding ns reason`: returned from `lockDirectLocally` owning the
  `ScopedLock` guard.
* `failed`: exited `lockDirectLocally` by exception (`LockBusy` timeout or
  interruption of its operation context); owns nothing. -/
inductive Phase where
  | idle : Phase
  | waiting (ns reason : String) (waitFor : Nat) : Phase
  | holding (ns reason : String) : Phase
  | failed : Phase
deriving DecidableEq, Repr

/-- Global state: the `_inProgressMap` plus the phase of every caller
(callers are indexed by position in the list). -/
structure SysState where
  table : TableF
  callers : List Phase

/-- Whether a phase is "holder of `ns`". -/
def isHolder (ns : String) : Phase → Bool
  | Phase.holding ns2 _ => ns2 == ns
  | _ => false

/-- Whether a phase is "registered waiter for `ns`". -/
def isWaiter (ns : String) : Phase → Bool
  | Phase.waiting ns2 _ _ => ns2 == ns
  | _ => false

/-- Number of callers currently holding the local slot for `ns` (living
owning `ScopedLock` guards for `ns`). -/
def holdersCount (cs : List Phase) (ns : String) : Nat :=
  cs.countP (isHolder ns)

/-- Number of callers currently registered as waiters for `ns`. -/
def waitersCount (cs : List Phase) (ns : String) : Nat :=
  cs.countP (isWaiter ns)

/-- One atomic mutex-protected region of `dist_lock_manager.cpp`, by any one
caller `i`:

* `acquireFresh`: lines 124-128 and 146-147, when `_inProgressMap.find(ns)`
  misses: `try_emplace` a fresh `NSLock` and return the guard.
* `enqueue`: lines 130-132 when the entry exists: `numWaiting++` and enter
  the condition wait (for any `waitFor`, including 0).
* `wakeAcquire`: lines 133-143, the wait observes `!isInProgress`:
  `guard.dismiss()` (no decrement), store the caller's reason, set
  `isInProgress`, return the guard.
* `waitTimeout`: the wait deadline expires with the final predicate check
  still seeing `isInProgress` (so `waitForConditionOrInterruptFor` returns
  false): the `ScopeGuard` runs `numWaiting--` and `uasserted(LockBusy,...)`
  unwinds (lines 132-140).
* `waitCancel`: the waiting operation context is interrupted, which throws
  out of the wait regardless of the predicate: the `ScopeGuard` runs
  `numWaiting--` and the exception unwinds (lines 132-134).
* `release`: `~ScopedLock` on the owning guard (lines 162-177), via
  `ScopedLock.destruct`. -/
inductive LockStep : SysState → SysState → Prop where
  | acquireFresh (s : SysState) (i : Nat) (ns reason : String)
      (hc : s.callers.get? i = some Phase.idle)
      (ht : s.table ns = none) :
      LockStep s ⟨upd s.table ns (NSLock.make reason),
                  s.callers.set i (Phase.holding ns reason)⟩
  | enqueue (s : SysState) (i : Nat) (ns reason : String) (waitFor : Nat) (e : NSLock)
      (hc : s.callers.get? i = some Phase.idle)
      (ht : s.table ns = some e) :
      LockStep s ⟨upd s.table ns ⟨e.reason, e.isInProgress, e.numWaiting + 1⟩,
                  s.callers.set i (Phase.waiting ns reason waitFor)⟩
  | wakeAcquire (s : SysState) (i : Nat) (ns reason : String) (waitFor : Nat) (e : NSLock)
      (hc : s.callers.get? i = some (Phase.waiting ns reason waitFor))
      (ht : s.table ns = some e)
      (hp : e.isInProgress = false) :
      LockStep s ⟨upd s.table ns ⟨reason, true, e.numWaiting⟩,
                  s.callers.set i (Phase.holding ns reason)⟩
  | waitTimeout (s : SysState) (i : Nat) (ns reason : String) (waitFor : Nat) (e : NSLock)
      (hc : s.callers.get? i = some (Phase.waiting ns reason waitFor))
      (ht : s.table ns = some e)
      (hp : e.isInProgress = true) :
      LockStep s ⟨upd s.table ns ⟨e.reason, e.isInProgress, e.numWaiting - 1⟩,
                  s.callers.set i Phase.failed⟩
  | waitCancel (s : SysState) (i : Nat) (ns reason : String) (waitFor : Nat) (e : NSLock)
      (hc : s.callers.get? i = some (Phase.waiting ns reason waitFor))
      (ht : s.table ns = some e) :
      LockStep s ⟨upd s.table ns ⟨e.reason, e.isInProgress, e.numWaiting - 1⟩,
                  s.callers.set i Phase.failed⟩
  | release (s : SysState) (i : Nat) (ns reason : String) (e : NSLock)
      (hc : s.callers.get? i = some (Phase.holding ns reason))
      (ht : s.table ns = some e) :
      LockStep s ⟨releaseTable s.table ns e,
                  s.callers.set i Phase.idle⟩

/-- States reachable from an initial state (empty `_inProgressMap`, any
number of idle callers) by any interleaving of steps. -/
inductive LockReachable : SysState → Prop where
  | init (n : Nat) : LockReachable ⟨emptyTable, List.replicate n Phase.idle⟩
  | step {s s' : SysState} (hr : LockReachable s) (hs : LockStep s s') :
      LockReachable s'

/-- The inductive invariant of the lock table:

* a name with no entry has no holder and no registered waiter;
* an entry's `numWaiting` equals the number of holders plus the number of
  registered waiters (the holder counts itself, per `NSLock.make`);
* `isInProgress` is set exactly when there is a (then unique) holder. -/
def LockInv (s : SysState) : Prop :=
  ∀ ns : String,
    (s.table ns = none →
        holdersCount s.callers ns = 0 ∧ waitersCount s.callers ns = 0) ∧
    (∀ e : NSLock, s.table ns = some e →
        e.numWaiting = (holdersCount s.callers ns : Int) + (waitersCount s.callers ns : Int)
        ∧ (e.isInProgress = true ↔ holdersCount s.callers ns = 1)
        ∧ holdersCount s.callers ns ≤ 1)

/-!
### Concrete states used to exercise the model

A two-caller run on resource `"n"`: caller 0 acquires fresh (reason
`"create"`), caller 1 enqueues as a waiter (reason `"drop"`), caller 0
releases, caller 1 is cancelled while waiting.
-/

/-- Two idle callers, empty table. -/
def st0 : SysState := ⟨emptyTable, List.replicate 2 Phase.idle⟩

/-- After caller 0 runs the fresh-acquisition region for `"n"`. -/
def st1 : SysState :=
  ⟨upd st0.table "n" (NSLock.make "create"),
   st0.callers.set 0 (Phase.holding "n" "create")⟩

/-- After caller 1 additionally runs the enqueue region for `"n"`
(`numWaiting` goes 1 to 2). -/
def st2 : SysState :=
  ⟨upd st1.table "n" ⟨"create", true, 2⟩,
   st1.callers.set 1 (Phase.waiting "n" "drop" 5)⟩

/-- After caller 0 additionally destroys its owning `ScopedLock`. -/
def st3 : SysState :=
  ⟨releaseTable st2.table "n" ⟨"create", true, 2⟩,
   st2.callers.set 0 Phase.idle⟩

/-- After caller 1 additionally is cancelled out of its wait. -/
def st4 : SysState :=
  ⟨upd st3.table "n" ⟨"", false, 0⟩,
   st3.callers.set 1 Phase.failed⟩

/-- Variant of `st2` where caller 1 enqueues with `waitFor = 0`
(a `kSingleLockAttemptTimeout` attempt on a held name). -/
def zt2 : SysState :=
  ⟨upd st1.table "n" ⟨"create", true, 2⟩,
   st1.callers.set 1 (Phase.waiting "n" "drop" 0)⟩

/-- A table whose `"n"` entry is not in progress but still has a registered
waiter count of 1 (the state a holder's release leaves behind while one
waiter is still registered). -/
def c6t : TableF := upd emptyTable "n" ⟨"r1", false, 1⟩

/-- A distributed guard with no attached operation context. -/
def c8g : ScopedDistLock := ⟨none, "n", ⟨"n", "r", true⟩, true⟩

/-- A distributed guard with an attached operation context. -/
def c8g2 : ScopedDistLock := ⟨some 5, "n", ⟨"n", "r", true⟩, true⟩

/-! ### Map and counting lemmas -/

theorem upd_at {t : TableF} {ns : String} {e : NSLock} : upd t ns e ns = some e := by
  simp [upd]

theorem upd_other {t : TableF} {ns ns' : String} {e : NSLock} (hx : ns' ≠ ns) :
    upd t ns e ns' = t ns' := by
  simp [upd, hx]

theorem eraseKey_at {t : TableF} {ns : String} : eraseKey t ns ns = none := by
  simp [eraseKey]

theorem eraseKey_other {t : TableF} {ns ns' : String} (hx : ns' ≠ ns) :
    eraseKey t ns ns' = t ns' := by
  simp [eraseKey, hx]

theorem releaseTable_other {t : TableF} {ns ns' : String} (e : NSLock) (hx : ns' ≠ ns) :
    releaseTable t ns e ns' = t ns' := by
  unfold releaseTable
  split
  · exact eraseKey_other hx
  · exact upd_other hx

/-- Re-writing the entry a map already holds at a key leaves the map
unchanged. -/
theorem upd_self {t : TableF} {ns : String} {e : NSLock} (h : t ns = some e) :
    upd t ns e = t := by
  funext x
  by_cases hx : x = ns
  · subst hx
    rw [upd_at, h]
  · exact upd_other hx

@[simp] theorem isHolder_idle (ns : String) : isHolder ns Phase.idle = false := rfl

@[simp] theorem isHolder_failed (ns : String) : isHolder ns Phase.failed = false := rfl

@[simp] theorem isHolder_waiting (ns a r : String) (w : Nat) :
    isHolder ns (Phase.waiting a r w) = false := rfl

@[simp] theorem isHolder_holding (ns a r : String) :
    isHolder ns (Phase.holding a r) = (a == ns) := rfl

@[simp] theorem isWaiter_idle (ns : String) : isWaiter ns Phase.idle = false := rfl

@[simp] theorem isWaiter_failed (ns : String) : isWaiter ns Phase.failed = false := rfl

@[simp] theorem isWaiter_waiting (ns a r : String) (w : Nat) :
    isWaiter ns (Phase.waiting a r w) = (a == ns) := rfl

@[simp] theorem isWaiter_holding (ns a r : String) :
    isWaiter ns (Phase.holding a r) = false := rfl

/-- Replacing the element at one position changes a `countP` by the
difference of the predicate on the old and new elements. -/
theorem countP_set_add (p : Phase → Bool) (l : List Phase) (i : Nat) (a b : Phase)
    (h : l.get? i = some a) :
    (l.set i b).countP p + (if p a then 1 else 0)
      = l.countP p + (if p b then 1 else 0) := by
  induction l generalizing i with
  | nil => simp at h
  | cons x xs ih =>
    cases i with
    | zero =>
      rw [List.get?_cons_zero] at h
      injection h with h
      subst h
      simp only [List.set_cons_zero, List.countP_cons]
      omega
    | succ j =>
      rw [List.get?_cons_succ] at h
      have ih2 := ih j h
      simp only [List.set_cons_succ, List.countP_cons]
      omega

theorem countP_pos_of_get? {p : Phase → Bool} {l : List Phase} {i : Nat} {a : Phase}
    (h : l.get? i = some a) (ha : p a = true) : 0 < l.countP p :=
  List.countP_pos_iff.mpr ⟨a, List.get?_mem h, ha⟩

theorem countP_replicate_idle (p : Phase → Bool) (hp : p Phase.idle = false) (n : Nat) :
    (List.replicate n Phase.idle).countP p = 0 :=
  List.countP_eq_zero.mpr (fun a ha => by rw [List.eq_of_mem_replicate ha]; simp [hp])

/-! ### The invariant holds in every reachable state -/

theorem lockInv_init (n : Nat) :
    LockInv ⟨emptyTable, List.replicate n Phase.idle⟩ := by
  intro ns
  constructor
  · intro _
    exact ⟨countP_replicate_idle _ (by simp) n, countP_replicate_idle _ (by simp) n⟩
  · intro e he
    simp [emptyTable] at he

theorem lockInv_step {s s' : SysState} (hinv : LockInv s) (hstep : LockStep s s') :
    LockInv s' := by
  cases hstep with
  | acquireFresh i ns reason hc ht =>
    intro ns'
    dsimp only
    have hH := countP_set_add (isHolder ns') s.callers i Phase.idle
      (Phase.holding ns reason) hc
    have hW := countP_set_add (isWaiter ns') s.callers i Phase.idle
      (Phase.holding ns reason) hc
    by_cases hx : ns' = ns
    · subst hx
      simp only [isHolder_idle, isHolder_holding, isWaiter_idle, isWaiter_holding,
        beq_self_eq_true, if_true, if_false, Bool.false_eq_true] at hH hW
      obtain ⟨hz1, hz2⟩ := (hinv ns').1 ht
      simp only [holdersCount, waitersCount] at hz1 hz2
      constructor
      · intro hnone
        rw [upd_at] at hnone
        exact absurd hnone (by simp)
      · intro e' he'
        rw [upd_at] at he'
        injection he' with he'
        subst he'
        have hH1 : holdersCount (s.callers.set i (Phase.holding ns' reason)) ns' = 1 := by
          unfold holdersCount
          omega
        have hW0 : waitersCount (s.callers.set i (Phase.holding ns' reason)) ns' = 0 := by
          unfold waitersCount
          omega
        refine ⟨?_, ?_, ?_⟩
        · rw [hH1, hW0]
          simp [NSLock.make]
        · simp [NSLock.make, hH1]
        · omega
    · simp only [isHolder_idle, isHolder_holding, isWaiter_idle, isWaiter_holding,
        beq_iff_eq, Ne.symm hx, if_false, Bool.false_eq_true, if_neg] at hH hW
      have hHeq : holdersCount (s.callers.set i (Phase.holding ns reason)) ns'
          = holdersCount s.callers ns' := by
        unfold holdersCount
        simp [Ne.symm hx] at hH
        omega
      have hWeq : waitersCount (s.callers.set i (Phase.holding ns reason)) ns'
          = waitersCount s.callers ns' := by
        unfold waitersCount
        omega
      constructor
      · intro hnone
        rw [upd_other hx] at hnone
        obtain ⟨h1, h2⟩ := (hinv ns').1 hnone
        rw [hHeq, hWeq]
        exact ⟨h1, h2⟩
      · intro e' he'
        rw [upd_other hx] at he'
        obtain ⟨h1, h2, h3⟩ := (hinv ns').2 e' he'
        rw [hHeq, hWeq]
        exact ⟨h1, h2, h3⟩
  | enqueue i ns reason waitFor e hc ht =>
    intro ns'
    dsimp only
    have hH := countP_set_add (isHolder ns') s.callers i Phase.idle
      (Phase.waiting ns reason waitFor) hc
    have hW := countP_set_add (isWaiter ns') s.callers i Phase.idle
      (Phase.waiting ns reason waitFor) hc
    by_cases hx : ns' = ns
    · subst hx
      simp only [isHolder_idle, isHolder_waiting, isWaiter_idle, isWaiter_waiting,
        beq_self_eq_true, if_true, if_false, Bool.false_eq_true] at hH hW
      obtain ⟨h1, h2, h3⟩ := (hinv ns').2 e ht
      simp only [holdersCount, waitersCount] at h1 h2 h3
      constructor
      · intro hnone
        rw [upd_at] at hnone
        exact absurd hnone (by simp)
      · intro e' he'
        rw [upd_at] at he'
        injection he' with he'
        subst he'
        have hHeq : holdersCount (s.callers.set i (Phase.waiting ns' reason waitFor)) ns'
            = List.countP (isHolder ns') s.callers := by
          unfold holdersCount
          omega
        have hWeq : waitersCount (s.callers.set i (Phase.waiting ns' reason waitFor)) ns'
            = List.countP (isWaiter ns') s.callers + 1 := by
          unfold waitersCount
          omega
        refine ⟨?_, ?_, ?_⟩
        · dsimp only
          rw [hHeq, hWeq]
          push_cast
          omega
        · dsimp only
          rw [hHeq]
          exact h2
        · rw [hHeq]
          omega
    · simp only [isHolder_idle, isHolder_waiting, isWaiter_idle, isWaiter_waiting,
        beq_iff_eq, Ne.symm hx, if_false, Bool.false_eq_true, if_neg] at hH hW
      have hHeq : holdersCount (s.callers.set i (Phase.waiting ns reason waitFor)) ns'
          = holdersCount s.callers ns' := by
        unfold holdersCount
        omega
      have hWeq : waitersCount (s.callers.set i (Phase.waiting ns reason waitFor)) ns'
          = waitersCount s.callers ns' := by
        unfold waitersCount
        simp [Ne.symm hx] at hW
        omega
      constructor
      · intro hnone
        rw [upd_other hx] at hnone
        obtain ⟨h1, h2⟩ := (hinv ns').1 hnone
        rw [hHeq, hWeq]
        exact ⟨h1, h2⟩
      · intro e' he'
        rw [upd_other hx] at he'
        obtain ⟨h1, h2, h3⟩ := (hinv ns').2 e' he'
        rw [hHeq, hWeq]
        exact ⟨h1, h2, h3⟩
  | wakeAcquire i ns reason waitFor e hc ht hp =>
    intro ns'
    dsimp only
    have hH := countP_set_add (isHolder ns') s.callers i (Phase.waiting ns reason waitFor)
      (Phase.holding ns reason) hc
    have hW := countP_set_add (isWaiter ns') s.callers i (Phase.waiting ns reason waitFor)
      (Phase.holding ns reason) hc
    by_cases hx : ns' = ns
    · subst hx
      simp only [isHolder_waiting, isHolder_holding, isWaiter_waiting, isWaiter_holding,
        beq_self_eq_true, if_true, if_false, Bool.false_eq_true] at hH hW
      obtain ⟨h1, h2, h3⟩ := (hinv ns').2 e ht
      simp only [holdersCount, waitersCount] at h1 h2 h3
      rw [hp] at h2
      simp only [Bool.false_eq_true, false_iff] at h2
      constructor
      · intro hnone
        rw [upd_at] at hnone
        exact absurd hnone (by simp)
      · intro e' he'
        rw [upd_at] at he'
        injection he' with he'
        subst he'
        have hH1 : holdersCount (s.callers.set i (Phase.holding ns' reason)) ns' = 1 := by
          unfold holdersCount
          omega
        have hWeq : waitersCount (s.callers.set i (Phase.holding ns' reason)) ns' + 1
            = List.countP (isWaiter ns') s.callers := by
          unfold waitersCount
          omega
        refine ⟨?_, ?_, ?_⟩
        · dsimp only
          rw [hH1]
          push_cast
          omega
        · simp [hH1]
        · omega
    · simp only [isHolder_waiting, isHolder_holding, isWaiter_waiting, isWaiter_holding,
        beq_iff_eq, Ne.symm hx, if_false, Bool.false_eq_true, if_neg] at hH hW
      have hHeq : holdersCount (s.callers.set i (Phase.holding ns reason)) ns'
          = holdersCount s.callers ns' := by
        unfold holdersCount
        simp [Ne.symm hx] at hH
        omega
      have hWeq : waitersCount (s.callers.set i (Phase.holding ns reason)) ns'
          = waitersCount s.callers ns' := by
        unfold waitersCount
        simp [Ne.symm hx] at hW
        omega
      constructor
      · intro hnone
        rw [upd_other hx] at hnone
        obtain ⟨h1, h2⟩ := (hinv ns').1 hnone
        rw [hHeq, hWeq]
        exact ⟨h1, h2⟩
      · intro e' he'
        rw [upd_other hx] at he'
        obtain ⟨h1, h2, h3⟩ := (hinv ns').2 e' he'
        rw [hHeq, hWeq]
        exact ⟨h1, h2, h3⟩
  | waitTimeout i ns reason waitFor e hc ht hp =>
    intro ns'
    dsimp only
    have hH := countP_set_add (isHolder ns') s.callers i (Phase.waiting ns reason waitFor)
      Phase.failed hc
    have hW := countP_set_add (isWaiter ns') s.callers i (Phase.waiting ns reason waitFor)
      Phase.failed hc
    by_cases hx : ns' = ns
    · subst hx
      simp only [isHolder_waiting, isHolder_failed, isWaiter_waiting, isWaiter_failed,
        beq_self_eq_true, if_true, if_false, Bool.false_eq_true] at hH hW
      obtain ⟨h1, h2, h3⟩ := (hinv ns').2 e ht
      simp only [holdersCount, waitersCount] at h1 h2 h3
      constructor
      · intro hnone
        rw [upd_at] at hnone
        exact absurd hnone (by simp)
      · intro e' he'
        rw [upd_at] at he'
        injection he' with he'
        subst he'
        have hHeq : holdersCount (s.callers.set i Phase.failed) ns'
            = List.countP (isHolder ns') s.callers := by
          unfold holdersCount
          omega
        have hWeq : waitersCount (s.callers.set i Phase.failed) ns' + 1
            = List.countP (isWaiter ns') s.callers := by
          unfold waitersCount
          omega
        refine ⟨?_, ?_, ?_⟩
        · dsimp only
          rw [hHeq]
          omega
        · dsimp only
          rw [hHeq]
          exact h2
        · rw [hHeq]
          omega
    · simp only [isHolder_waiting, isHolder_failed, isWaiter_waiting, isWaiter_failed,
        beq_iff_eq, Ne.symm hx, if_false, Bool.false_eq_true, if_neg] at hH hW
      have hHeq : holdersCount (s.callers.set i Phase.failed) ns'
          = holdersCount s.callers ns' := by
        unfold holdersCount
        omega
      have hWeq : waitersCount (s.callers.set i Phase.failed) ns'
          = waitersCount s.callers ns' := by
        unfold waitersCount
        simp [Ne.symm hx] at hW
        omega
      constructor
      · intro hnone
        rw [upd_other hx] at hnone
        obtain ⟨h1, h2⟩ := (hinv ns').1 hnone
        rw [hHeq, hWeq]
        exact ⟨h1, h2⟩
      · intro e' he'
        rw [upd_other hx] at he'
        obtain ⟨h1, h2, h3⟩ := (hinv ns').2 e' he'
        rw [hHeq, hWeq]
        exact ⟨h1, h2, h3⟩
  | waitCancel i ns reason waitFor e hc ht =>
    intro ns'
    dsimp only
    have hH := countP_set_add (isHolder ns') s.callers i (Phase.waiting ns reason waitFor)
      Phase.failed hc
    have hW := countP_set_add (isWaiter ns') s.callers i (Phase.waiting ns reason waitFor)
      Phase.failed hc
    by_cases hx : ns' = ns
    · subst hx
      simp only [isHolder_waiting, isHolder_failed, isWaiter_waiting, isWaiter_failed,
        beq_self_eq_true, if_true, if_false, Bool.false_eq_true] at hH hW
      obtain ⟨h1, h2, h3⟩ := (hinv ns').2 e ht
      simp only [holdersCount, waitersCount] at h1 h2 h3
      constructor
      · intro hnone
        rw [upd_at] at hnone
        exact absurd hnone (by simp)
      · intro e' he'
        rw [upd_at] at he'
        injection he' with he'
        subst he'
        have hHeq : holdersCount (s.callers.set i Phase.failed) ns'
            = List.countP (isHolder ns') s.callers := by
          unfold holdersCount
          omega
        have hWeq : waitersCount (s.callers.set i Phase.failed) ns' + 1
            = List.countP (isWaiter ns') s.callers := by
          unfold waitersCount
          omega
        refine ⟨?_, ?_, ?_⟩
        · dsimp only
          rw [hHeq]
          omega
        · dsimp only
          rw [hHeq]
          exact h2
        · rw [hHeq]
          omega
    · simp only [isHolder_waiting, isHolder_failed, isWaiter_waiting, isWaiter_failed,
        beq_iff_eq, Ne.symm hx, if_false, Bool.false_eq_true, if_neg] at hH hW
      have hHeq : holdersCount (s.callers.set i Phase.failed) ns'
          = holdersCount s.callers ns' := by
        unfold holdersCount
        omega
      have hWeq : waitersCount (s.callers.set i Phase.failed) ns'
          = waitersCount s.callers ns' := by
        unfold waitersCount
        simp [Ne.symm hx] at hW
        omega
      constructor
      · intro hnone
        rw [upd_other hx] at hnone
        obtain ⟨h1, h2⟩ := (hinv ns').1 hnone
        rw [hHeq, hWeq]
        exact ⟨h1, h2⟩
      · intro e' he'
        rw [upd_other hx] at he'
        obtain ⟨h1, h2, h3⟩ := (hinv ns').2 e' he'
        rw [hHeq, hWeq]
        exact ⟨h1, h2, h3⟩
  | release i ns reason e hc ht =>
    intro ns'
    dsimp only
    have hH := countP_set_add (isHolder ns') s.callers i (Phase.holding ns reason)
      Phase.idle hc
    have hW := countP_set_add (isWaiter ns') s.callers i (Phase.holding ns reason)
      Phase.idle hc
    by_cases hx : ns' = ns
    · subst hx
      simp only [isHolder_holding, isHolder_idle, isWaiter_holding, isWaiter_idle,
        beq_self_eq_true, if_true, if_false, Bool.false_eq_true] at hH hW
      obtain ⟨h1, h2, h3⟩ := (hinv ns').2 e ht
      simp only [holdersCount, waitersCount] at h1 h2 h3
      have hHpos : 0 < List.countP (isHolder ns') s.callers :=
        countP_pos_of_get? hc (by simp)
      by_cases hz : e.numWaiting - 1 = 0
      · constructor
        · intro _
          constructor
          · unfold holdersCount
            omega
          · unfold waitersCount
            omega
        · intro e' he'
          unfold releaseTable at he'
          rw [if_pos hz, eraseKey_at] at he'
          exact absurd he' (by simp)
      · constructor
        · intro hnone
          unfold releaseTable at hnone
          rw [if_neg hz, upd_at] at hnone
          exact absurd hnone (by simp)
        · intro e' he'
          unfold releaseTable at he'
          rw [if_neg hz, upd_at] at he'
          injection he' with he'
          subst he'
          have hH0 : holdersCount (s.callers.set i Phase.idle) ns' = 0 := by
            unfold holdersCount
            omega
          have hWeq : waitersCount (s.callers.set i Phase.idle) ns'
              = List.countP (isWaiter ns') s.callers := by
            unfold waitersCount
            omega
          refine ⟨?_, ?_, ?_⟩
          · dsimp only
            rw [hH0, hWeq]
            push_cast
            omega
          · simp [hH0]
          · rw [hH0]
            omega
    · have hto : releaseTable s.table ns e ns' = s.table ns' := releaseTable_other e hx
      simp only [isHolder_holding, isHolder_idle, isWaiter_holding, isWaiter_idle,
        beq_iff_eq, Ne.symm hx, if_false, Bool.false_eq_true, if_neg] at hH hW
      have hHeq : holdersCount (s.callers.set i Phase.idle) ns'
          = holdersCount s.callers ns' := by
        unfold holdersCount
        simp [Ne.symm hx] at hH
        omega
      have hWeq : waitersCount (s.callers.set i Phase.idle) ns'
          = waitersCount s.callers ns' := by
        unfold waitersCount
        omega
      constructor
      · intro hnone
        rw [hto] at hnone
        obtain ⟨h1, h2⟩ := (hinv ns').1 hnone
        rw [hHeq, hWeq]
        exact ⟨h1, h2⟩
      · intro e' he'
        rw [hto] at he'
        obtain ⟨h1, h2, h3⟩ := (hinv ns').2 e' he'
        rw [hHeq, hWeq]
        exact ⟨h1, h2, h3⟩

/-- Every reachable state satisfies the lock-table invariant. -/
theorem lockInv_reachable {s : SysState} (h : LockReachable s) : LockInv s := by
  induction h with
  | init n => exact lockInv_init n
  | step hr hs ih => exact lockInv_step ih hs

/-! ### Reachability of the concrete states -/

theorem st1_reachable : LockReachable st1 :=
  LockReachable.step (LockReachable.init 2)
    (LockStep.acquireFresh st0 0 "n" "create" rfl rfl)

theorem st2_reachable : LockReachable st2 :=
  LockReachable.step st1_reachable
    (LockStep.enqueue st1 1 "n" "drop" 5 ⟨"create", true, 1⟩ rfl rfl)

theorem st3_reachable : LockReachable st3 :=
  LockReachable.step st2_reachable
    (LockStep.release st2 0 "n" "create" ⟨"create", true, 2⟩ rfl rfl)

theorem st4_reachable : LockReachable st4 :=
  LockReachable.step st3_reachable
    (LockStep.waitCancel st3 1 "n" "drop" 5 ⟨"", false, 1⟩ rfl rfl)

theorem zt2_reachable : LockReachable zt2 :=
  LockReachable.step st1_reachable
    (LockStep.enqueue st1 1 "n" "drop" 0 ⟨"create", true, 1⟩ rfl rfl)

/-! ## Claims -/

/-- C1: Local mutual exclusion.  In every state reachable under any
interleaving of `lockDirectLocally` regions and `ScopedLock` releases
(including waiters cancelled mid-wait, the `waitCancel` step), for every
resource name: at most one caller is in the `holding` phase (owns a live
owning `ScopedLock`); an entry's `isInProgress` flag is set exactly when
there is such a (then unique) holder; and a name with no table entry has no
holder.  A cancelled waiter moves to the `failed` phase and is never counted
as a holder. -/
theorem c1_local_mutual_exclusion (s : SysState) (hs : LockReachable s) (ns : String) :
    holdersCount s.callers ns ≤ 1
    ∧ (∀ e, s.table ns = some e →
        (e.isInProgress = true ↔ holdersCount s.callers ns = 1))
    ∧ (s.table ns = none → holdersCount s.callers ns = 0) := by
  have hinv := lockInv_reachable hs ns
  refine ⟨?_, ?_, ?_⟩
  · cases hts : s.table ns with
    | none =>
      have h0 := (hinv.1 hts).1
      omega
    | some e => exact (hinv.2 e hts).2.2
  · intro e he
    exact (hinv.2 e he).2.1
  · intro hn
    exact (hinv.1 hn).1

/-- Witness for C1 at the concrete reachable state `st1` (caller 0 holds
`"n"`). -/
theorem c1_local_mutual_exclusion_witness :
    holdersCount st1.callers "n" ≤ 1
    ∧ ((NSLock.make "create").isInProgress = true ↔ holdersCount st1.callers "n" = 1)
    ∧ holdersCount st1.callers "n" = 1 :=
  ⟨(c1_local_mutual_exclusion st1 st1_reachable "n").1,
   (c1_local_mutual_exclusion st1 st1_reachable "n").2.1 (NSLock.make "create") rfl,
   ((c1_local_mutual_exclusion st1 st1_reachable "n").2.1 (NSLock.make "create") rfl).mp rfl⟩

/-- C7 counterexample: a reachable state with a stale table entry.  Trace:
caller 0 acquires `"n"`, caller 1 enqueues as a waiter, caller 0 releases
(the entry stays because `numWaiting = 1` is still nonzero), caller 1 is then
cancelled out of its wait (only the `ScopeGuard` decrement runs, no erase).
The resulting reachable state `st4` still has an entry for `"n"` although it
is not held, `numWaiting = 0`, and there is no holder and no waiter —
contradicting the claimed "entry exists iff held or has a waiter". -/
theorem c7_stale_entry_counterexample :
    LockReachable st4
    ∧ st4.table "n" = some ⟨"", false, 0⟩
    ∧ holdersCount st4.callers "n" = 0
    ∧ waitersCount st4.callers "n" = 0 :=
  ⟨st4_reachable, rfl, rfl, rfl⟩

/-- C7 amended: in every reachable state, if a name is held by some caller or
has some registered waiter then its `_inProgressMap` entry exists, and an
entry's `numWaiting` always equals the number of holders plus registered
waiters; but the converse fails after a cancelled waiter (see the
counterexample): an unheld, waiter-free stale entry can persist until the
next acquisition of that name reuses it. -/
theorem c7_table_membership_amended (s : SysState) (hs : LockReachable s) (ns : String) :
    (∀ i r, s.callers.get? i = some (Phase.holding ns r) → (s.table ns).isSome = true)
    ∧ (∀ i r w, s.callers.get? i = some (Phase.waiting ns r w) → (s.table ns).isSome = true)
    ∧ (∀ e, s.table ns = some e →
        e.numWaiting = (holdersCount s.callers ns : Int) + (waitersCount s.callers ns : Int)) := by
  have hinv := lockInv_reachable hs ns
  refine ⟨?_, ?_, fun e he => (hinv.2 e he).1⟩
  · intro i r hi
    cases hts : s.table ns with
    | some e => rfl
    | none =>
      have h0 := (hinv.1 hts).1
      have hpos : 0 < holdersCount s.callers ns :=
        countP_pos_of_get? hi (by simp)
      omega
  · intro i r w hi
    cases hts : s.table ns with
    | some e => rfl
    | none =>
      have h0 := (hinv.1 hts).2
      have hpos : 0 < waitersCount s.callers ns :=
        countP_pos_of_get? hi (by simp)
      omega

/-- Witness for the amended C7 at the concrete reachable state `st2`
(caller 0 holds `"n"`, caller 1 waits; the entry records `numWaiting = 2`). -/
theorem c7_table_membership_amended_witness :
    (st2.table "n").isSome = true
    ∧ (2 : Int) = (holdersCount st2.callers "n" : Int) + (waitersCount st2.callers "n" : Int) :=
  ⟨(c7_table_membership_amended st2 st2_reachable "n").1 0 "create" rfl,
   (c7_table_membership_amended st2 st2_reachable "n").2.2 ⟨"create", true, 2⟩ rfl⟩

/-! ### Lemmas about the sequential call semantics -/

theorem nslock_incr_decr (e : NSLock) :
    (⟨e.reason, e.isInProgress, e.numWaiting + 1 - 1⟩ : NSLock) = e := by
  cases e with
  | mk r p w =>
    simp only [NSLock.mk.injEq]
    exact ⟨trivial, trivial, by omega⟩

/-- On every error exit of `lockDirectLocally` the `ScopeGuard` decrement has
undone the waiter registration: the table is exactly the input table. -/
theorem lockDirectLocallySeq_error_table {t : TableF} {ns reason : String}
    {waitFor : Nat} {interrupted : Bool} {err : DLError} {t1 : TableF}
    (h : lockDirectLocallySeq t ns reason waitFor interrupted = (Except.error err, t1)) :
    t1 = t := by
  unfold lockDirectLocallySeq at h
  split at h
  · simp at h
  · rename_i e hts
    split at h
    · simp at h
    · split at h
      · rw [Prod.mk.injEq] at h
        rw [← h.2, nslock_incr_decr e]
        exact upd_self hts
      · rw [Prod.mk.injEq] at h
        rw [← h.2, nslock_incr_decr e]
        exact upd_self hts

/-- Inversion of a successful `lockDirectLocally`: the returned guard is the
owning guard for the name, and the table entry for the name is held. -/
theorem lockDirectLocallySeq_ok_inv {t : TableF} {ns reason : String}
    {waitFor : Nat} {interrupted : Bool} {sl : ScopedLock} {t1 : TableF}
    (h : lockDirectLocallySeq t ns reason waitFor interrupted = (Except.ok sl, t1)) :
    sl = ⟨ns, reason, true⟩ ∧ ∃ nw : Int, t1 = upd t ns ⟨reason, true, nw⟩ := by
  unfold lockDirectLocallySeq at h
  split at h
  · rw [Prod.mk.injEq] at h
    obtain ⟨h1, h2⟩ := h
    injection h1 with h1
    exact ⟨h1.symm, 1, h2.symm⟩
  · rename_i e hts
    split at h
    · rw [Prod.mk.injEq] at h
      obtain ⟨h1, h2⟩ := h
      injection h1 with h1
      exact ⟨h1.symm, e.numWaiting + 1, h2.symm⟩
    · split at h
      · simp at h
      · simp at h

/-- C3 counterexample: the claim "never registers the caller as a waiter" is
false.  In the reachable state `zt2`, caller 1 invoked `lockDirectLocally`
with `waitFor = 0` on the held name `"n"` and is registered in the wait queue:
its phase is `waiting "n" "drop" 0` and the entry's `numWaiting` was
incremented from 1 (in `st1`) to 2 on its behalf, before the zero-timeout
wait fails. -/
theorem c3_zero_timeout_counterexample :
    LockReachable zt2
    ∧ zt2.callers.get? 1 = some (Phase.waiting "n" "drop" 0)
    ∧ zt2.table "n" = some ⟨"create", true, 2⟩
    ∧ st1.table "n" = some ⟨"create", true, 1⟩ :=
  ⟨zt2_reachable, rfl, rfl, rfl⟩

/-- C3 amended: a `waitFor = 0` call on a held name fails immediately with
`LockBusy`; the caller IS transiently registered as a waiter (`numWaiting++`
before the zero-timeout wait), but the `ScopeGuard` decrement restores the
count as the error propagates, so the table after the failed call is exactly
the table before it. -/
theorem c3_zero_timeout_amended (t : TableF) (ns reason : String) (e : NSLock)
    (ht : t ns = some e) (hp : e.isInProgress = true) :
    lockDirectLocallySeq t ns reason 0 false
      = (Except.error ⟨ErrorCode.LockBusy, lockBusyMsg ns 0 reason⟩, t) := by
  have hmain : lockDirectLocallySeq t ns reason 0 false
      = (Except.error ⟨ErrorCode.LockBusy, lockBusyMsg ns 0 reason⟩,
         upd t ns ⟨e.reason, e.isInProgress, e.numWaiting + 1 - 1⟩) := by
    unfold lockDirectLocallySeq
    rw [ht]
    dsimp only
    rw [if_neg (by simp [hp]), if_neg (by simp)]
  rw [hmain, nslock_incr_decr e, upd_self ht]

/-- Witness for the amended C3: a held `"db.coll"` entry, a `waitFor = 0`
attempt by a second caller fails with `LockBusy` and leaves the table
untouched. -/
theorem c3_zero_timeout_amended_witness :
    lockDirectLocallySeq (upd emptyTable "db.coll" (NSLock.make "create")) "db.coll" "drop" 0 false
      = (Except.error ⟨ErrorCode.LockBusy, lockBusyMsg "db.coll" 0 "drop"⟩,
         upd emptyTable "db.coll" (NSLock.make "create")) :=
  c3_zero_timeout_amended (upd emptyTable "db.coll" (NSLock.make "create"))
    "db.coll" "drop" (NSLock.make "create") rfl rfl

/-- C4 (claim is right, code is wrong): evaluating `lockDirectLocally` at the
failing input — `"db.coll"` held with holder reason `"create"`, a second
caller with reason `"drop"` and `waitFor = 0` times out.  The call fails with
`LockBusy` and the message contains the resource name and the requested wait
duration, but it interpolates the FAILING CALLER's own reason `"drop"` (the
`reason` parameter) where its own wording — "that is currently locked with
reason" — and the spec promise the current holder's reason `"create"`
(`nsLock->reason`), which does not appear in the message at all. -/
theorem c4_lockbusy_message_bug :
    (lockDirectLocallySeq (upd emptyTable "db.coll" (NSLock.make "create"))
        "db.coll" "drop" 0 false).1
      = Except.error ⟨ErrorCode.LockBusy, lockBusyMsg "db.coll" 0 "drop"⟩
    ∧ containsStr (lockBusyMsg "db.coll" 0 "drop") "db.coll" = true
    ∧ containsStr (lockBusyMsg "db.coll" 0 "drop") "0ms" = true
    ∧ containsStr (lockBusyMsg "db.coll" 0 "drop") "drop" = true
    ∧ containsStr (lockBusyMsg "db.coll" 0 "drop") "create" = false :=
  ⟨rfl, by decide, by decide, by decide, by decide⟩

/-- C5 counterexample: the destructor of an owning `ScopedLock` DOES
decrement `numWaiting` (line 167), contrary to the claim.  Releasing the
holder of `"n"` whose entry has `numWaiting = 2` (one registered waiter)
leaves the entry with `numWaiting = 1`, not 2. -/
theorem c5_release_counterexample :
    ScopedLock.destruct ⟨"n", "create", true⟩ (upd emptyTable "n" ⟨"create", true, 2⟩)
      = some (releaseTable (upd emptyTable "n" ⟨"create", true, 2⟩) "n" ⟨"create", true, 2⟩)
    ∧ releaseTable (upd emptyTable "n" ⟨"create", true, 2⟩) "n" ⟨"create", true, 2⟩ "n"
      = some ⟨"", false, 1⟩
    ∧ ¬ releaseTable (upd emptyTable "n" ⟨"create", true, 2⟩) "n" ⟨"create", true, 2⟩ "n"
      = some ⟨"", false, 2⟩ :=
  ⟨rfl, rfl, by decide⟩

/-- C5 amended: destroying an owning `ScopedLock` for a name whose entry
exists, under the one critical section, decrements `numWaiting` by one (the
holder's own registration: a fresh entry starts at `numWaiting = 1` and a
woken waiter keeps its increment by dismissing its guard), clears the held
flag and the reason, wakes one waiter via `notify_one`, erases the entry
exactly when `numWaiting` is 0 after the decrement, and touches no other
name. -/
theorem c5_release_amended (t : TableF) (ns r : String) (e : NSLock)
    (ht : t ns = some e) :
    ∃ t2, ScopedLock.destruct ⟨ns, r, true⟩ t = some t2
      ∧ (e.numWaiting = 1 → t2 ns = none)
      ∧ (e.numWaiting ≠ 1 → t2 ns = some ⟨"", false, e.numWaiting - 1⟩)
      ∧ (∀ x, x ≠ ns → t2 x = t x) := by
  refine ⟨releaseTable t ns e, ?_, ?_, ?_, ?_⟩
  · unfold ScopedLock.destruct
    rw [if_pos rfl]
    dsimp only
    rw [ht]
  · intro h1
    unfold releaseTable
    rw [if_pos (by omega)]
    exact eraseKey_at
  · intro h1
    unfold releaseTable
    rw [if_neg (by omega)]
    exact upd_at
  · intro x hx
    exact releaseTable_other e hx

/-- Witness for the amended C5: releasing the holder of `"n"` with
`numWaiting = 2` keeps the entry with the count decremented to 1 and the
held flag and reason cleared. -/
theorem c5_release_amended_witness :
    ∃ t2, ScopedLock.destruct ⟨"n", "create", true⟩ (upd emptyTable "n" ⟨"create", true, 2⟩)
        = some t2
      ∧ ((⟨"create", true, 2⟩ : NSLock).numWaiting = 1 → t2 "n" = none)
      ∧ ((⟨"create", true, 2⟩ : NSLock).numWaiting ≠ 1 →
          t2 "n" = some ⟨"", false, (⟨"create", true, 2⟩ : NSLock).numWaiting - 1⟩)
      ∧ (∀ x, x ≠ "n" → t2 x = (upd emptyTable "n" ⟨"create", true, 2⟩) x) :=
  c5_release_amended (upd emptyTable "n" ⟨"create", true, 2⟩) "n" "create"
    ⟨"create", true, 2⟩ rfl

/-- C6 counterexample: the matching decrement of `numWaiting` is NOT executed
on a successful wake-up exit from the wait.  On a table whose `"n"` entry has
`isInProgress = false` and `numWaiting = 1` (a release already happened, one
registration still outstanding), a caller finds the existing entry,
increments `numWaiting` to 2, exits its wait successfully and acquires: the
call returns an owning guard and `numWaiting` stays 2 (it is not decremented
back to 1), because `guard.dismiss()` runs on the success path. -/
theorem c6_wait_exit_counterexample :
    (lockDirectLocallySeq c6t "n" "r2" 5 false).1 = Except.ok ⟨"n", "r2", true⟩
    ∧ (lockDirectLocallySeq c6t "n" "r2" 5 false).2 "n" = some ⟨"r2", true, 2⟩
    ∧ ¬ (lockDirectLocallySeq c6t "n" "r2" 5 false).2 "n" = some ⟨"r2", true, 1⟩ :=
  ⟨rfl, rfl, by decide⟩

/-- C6 amended: the `ScopeGuard` decrement runs on the timeout exit and on
the cancellation exit (both leave the table exactly as it was before the
call), but on a successful wake-up the guard is dismissed and the increment
is deliberately retained as the new holder's registration, to be released
later by the `ScopedLock` destructor. -/
theorem c6_wait_exit_amended (t : TableF) (ns reason : String) (waitFor : Nat)
    (e : NSLock) (ht : t ns = some e) :
    (e.isInProgress = true →
        (lockDirectLocallySeq t ns reason waitFor true).2 = t
      ∧ (lockDirectLocallySeq t ns reason waitFor false).2 = t
      ∧ (lockDirectLocallySeq t ns reason waitFor true).1
          = Except.error ⟨ErrorCode.Interrupted, interruptedMsg⟩
      ∧ (lockDirectLocallySeq t ns reason waitFor false).1
          = Except.error ⟨ErrorCode.LockBusy, lockBusyMsg ns waitFor reason⟩)
    ∧ (e.isInProgress = false →
        lockDirectLocallySeq t ns reason waitFor false
          = (Except.ok ⟨ns, reason, true⟩, upd t ns ⟨reason, true, e.numWaiting + 1⟩)) := by
  constructor
  · intro hp
    have hint : lockDirectLocallySeq t ns reason waitFor true
        = (Except.error ⟨ErrorCode.Interrupted, interruptedMsg⟩,
           upd t ns ⟨e.reason, e.isInProgress, e.numWaiting + 1 - 1⟩) := by
      unfold lockDirectLocallySeq
      rw [ht]
      dsimp only
      rw [if_neg (by simp [hp]), if_pos rfl]
    have hbusy : lockDirectLocallySeq t ns reason waitFor false
        = (Except.error ⟨ErrorCode.LockBusy, lockBusyMsg ns waitFor reason⟩,
           upd t ns ⟨e.reason, e.isInProgress, e.numWaiting + 1 - 1⟩) := by
      unfold lockDirectLocallySeq
      rw [ht]
      dsimp only
      rw [if_neg (by simp [hp]), if_neg (by simp)]
    rw [hint, hbusy]
    dsimp only
    rw [nslock_incr_decr e, upd_self ht]
    exact ⟨rfl, rfl, rfl, rfl⟩
  · intro hp
    unfold lockDirectLocallySeq
    rw [ht]
    dsimp only
    rw [if_pos hp]

/-- Witness for the amended C6: cancellation on a held entry restores the
table; success on an unheld entry keeps the increment. -/
theorem c6_wait_exit_amended_witness :
    (lockDirectLocallySeq (upd emptyTable "n" (NSLock.make "r1")) "n" "r2" 7 true).2
        = upd emptyTable "n" (NSLock.make "r1")
    ∧ lockDirectLocallySeq c6t "n" "r2" 5 false
        = (Except.ok ⟨"n", "r2", true⟩, upd c6t "n" ⟨"r2", true, (1 : Int) + 1⟩) :=
  ⟨((c6_wait_exit_amended (upd emptyTable "n" (NSLock.make "r1")) "n" "r2" 7
      (NSLock.make "r1") rfl).1 rfl).1,
   (c6_wait_exit_amended c6t "n" "r2" 5 ⟨"r1", false, 1⟩ rfl).2 rfl⟩

/-- C2: coordinator acquisition order and unwind in `DistLockManager::lock`.
(1) If local acquisition fails, its error is returned directly, the remote
call is not attempted, and the table is exactly the input table.  (2) If
local acquisition succeeds and the remote call fails, the remote error is
returned unchanged, the remote call was attempted, and the local guard's
destructor has run before returning: the final table is the destructed one,
in which the name is erased or no longer in progress.  (3) If both succeed,
a `ScopedDistLock` composing the context, the name and the owning local
guard is returned and the table keeps the local acquisition. -/
theorem c2_lock_orchestration (t : TableF) (opCtx : Nat) (name reason : String)
    (waitFor : Nat) (interrupted : Bool) (remoteResult : Option DLError) :
    (∀ err t1,
        lockDirectLocallySeq t name reason waitFor interrupted = (Except.error err, t1) →
        DistLockManager.lock t opCtx name reason waitFor interrupted remoteResult
          = ⟨Except.error err, t, false⟩)
    ∧ (∀ sl t1 err,
        lockDirectLocallySeq t name reason waitFor interrupted = (Except.ok sl, t1) →
        remoteResult = some err →
        ∃ t2, ScopedLock.destruct sl t1 = some t2
          ∧ DistLockManager.lock t opCtx name reason waitFor interrupted remoteResult
              = ⟨Except.error err, t2, true⟩
          ∧ (t2 name = none ∨ ∃ e2, t2 name = some e2 ∧ e2.isInProgress = false))
    ∧ (∀ sl t1,
        lockDirectLocallySeq t name reason waitFor interrupted = (Except.ok sl, t1) →
        remoteResult = none →
        DistLockManager.lock t opCtx name reason waitFor interrupted remoteResult
          = ⟨Except.ok ⟨some opCtx, name, sl, true⟩, t1, true⟩) := by
  refine ⟨?_, ?_, ?_⟩
  · intro err t1 h
    unfold DistLockManager.lock
    rw [h]
    dsimp only
    rw [lockDirectLocallySeq_error_table h]
  · intro sl t1 err h hrem
    obtain ⟨hsl, nw, ht1⟩ := lockDirectLocallySeq_ok_inv h
    have hfind : t1 sl.ns = some ⟨reason, true, nw⟩ := by
      rw [hsl, ht1]
      exact upd_at
    have hdes : ScopedLock.destruct sl t1
        = some (releaseTable t1 sl.ns ⟨reason, true, nw⟩) := by
      unfold ScopedLock.destruct
      rw [if_pos (by rw [hsl])]
      rw [hfind]
    refine ⟨releaseTable t1 sl.ns ⟨reason, true, nw⟩, hdes, ?_, ?_⟩
    · unfold DistLockManager.lock
      rw [h, hrem]
      dsimp only
      rw [hdes]
      rfl
    · unfold releaseTable
      by_cases hz : (⟨reason, true, nw⟩ : NSLock).numWaiting - 1 = 0
      · rw [if_pos hz]
        left
        rw [hsl]
        exact eraseKey_at
      · rw [if_neg hz]
        right
        refine ⟨⟨"", false, nw - 1⟩, ?_, rfl⟩
        rw [hsl]
        exact upd_at
  · intro sl t1 h hrem
    unfold DistLockManager.lock
    rw [h, hrem]

/-- Witness for C2, exercising all three branches at concrete inputs: a
`LockBusy` local failure with no remote call; a local success followed by a
remote failure, after which the table no longer holds `"n"`; and a full
success returning the composed guard. -/
theorem c2_lock_orchestration_witness :
    DistLockManager.lock (upd emptyTable "n" (NSLock.make "r1")) 0 "n" "r2" 0 false none
      = ⟨Except.error ⟨ErrorCode.LockBusy, lockBusyMsg "n" 0 "r2"⟩,
         upd emptyTable "n" (NSLock.make "r1"), false⟩
    ∧ (∃ t2, ScopedLock.destruct ⟨"n", "r2", true⟩ (upd emptyTable "n" (NSLock.make "r2"))
          = some t2
        ∧ DistLockManager.lock emptyTable 0 "n" "r2" 0 false
            (some ⟨ErrorCode.RemoteError, "remote backend failure"⟩)
            = ⟨Except.error ⟨ErrorCode.RemoteError, "remote backend failure"⟩, t2, true⟩
        ∧ (t2 "n" = none ∨ ∃ e2, t2 "n" = some e2 ∧ e2.isInProgress = false))
    ∧ DistLockManager.lock emptyTable 0 "n" "r2" 0 false none
        = ⟨Except.ok ⟨some 0, "n", ⟨"n", "r2", true⟩, true⟩,
           upd emptyTable "n" (NSLock.make "r2"), true⟩ :=
  ⟨(c2_lock_orchestration (upd emptyTable "n" (NSLock.make "r1")) 0 "n" "r2" 0 false none).1
      ⟨ErrorCode.LockBusy, lockBusyMsg "n" 0 "r2"⟩
      (upd (upd emptyTable "n" (NSLock.make "r1")) "n"
        ⟨"r1", true, (1 : Int) + 1 - 1⟩) rfl,
   (c2_lock_orchestration emptyTable 0 "n" "r2" 0 false
      (some ⟨ErrorCode.RemoteError, "remote backend failure"⟩)).2.1
      ⟨"n", "r2", true⟩ (upd emptyTable "n" (NSLock.make "r2"))
      ⟨ErrorCode.RemoteError, "remote backend failure"⟩ rfl rfl,
   (c2_lock_orchestration emptyTable 0 "n" "r2" 0 false none).2.2
      ⟨"n", "r2", true⟩ (upd emptyTable "n" (NSLock.make "r2")) rfl rfl⟩

/-- C8: context hand-off on `ScopedDistLock`.  `moveToAnotherThread` returns
a guard with the context reference cleared while the `_lockManager` pointer
and the owning local guard are carried over intact (so local and remote
ownership are unaffected), and the moved-from source owns nothing: its
destructor releases nothing (no remote unlock, no table change), so exactly
one owning guard remains.  `assignNewOpCtx` requires the context reference
to be null and hits `invariant(!_opCtx)` — a fatal invariant failure, not a
recoverable error — when a context is already attached; otherwise it
attaches the new context. -/
theorem c8_context_handoff (g : ScopedDistLock) (c : Nat) :
    g.moveToAnotherThread.1.opCtx = none
    ∧ g.moveToAnotherThread.1.lockName = g.lockName
    ∧ g.moveToAnotherThread.1.hasLockManager = g.hasLockManager
    ∧ g.moveToAnotherThread.1.scopedLock.hasLockManager = g.scopedLock.hasLockManager
    ∧ g.moveToAnotherThread.2.hasLockManager = false
    ∧ g.moveToAnotherThread.2.scopedLock.hasLockManager = false
    ∧ (∀ t r, g.moveToAnotherThread.2.destruct t r = some (t, r))
    ∧ (g.opCtx = none → g.assignNewOpCtx c
        = InvResult.ok ⟨some c, g.lockName, g.scopedLock, g.hasLockManager⟩)
    ∧ (∀ x, g.opCtx = some x → g.assignNewOpCtx c = InvResult.invariantFailure) := by
  refine ⟨rfl, rfl, rfl, rfl, rfl, rfl, ?_, ?_, ?_⟩
  · intro t r
    simp [ScopedDistLock.moveToAnotherThread, ScopedDistLock.moveCtor,
      ScopedDistLock.destruct, ScopedLock.destruct, ScopedLock.moveCtor]
  · intro h
    unfold ScopedDistLock.assignNewOpCtx
    rw [h]
  · intro x h
    unfold ScopedDistLock.assignNewOpCtx
    rw [h]

/-- Witness for C8 at concrete guards: hand-off clears the context, the
moved-from guard's destruction releases nothing, attach succeeds on an empty
reference and fails the invariant on an occupied one. -/
theorem c8_context_handoff_witness :
    c8g.moveToAnotherThread.1.opCtx = none
    ∧ c8g.moveToAnotherThread.2.destruct emptyTable 0 = some (emptyTable, 0)
    ∧ c8g.assignNewOpCtx 7 = InvResult.ok ⟨some 7, "n", ⟨"n", "r", true⟩, true⟩
    ∧ c8g2.assignNewOpCtx 7 = InvResult.invariantFailure :=
  ⟨(c8_context_handoff c8g 7).1,
   (c8_context_handoff c8g 7).2.2.2.2.2.2.1 emptyTable 0,
   (c8_context_handoff c8g 7).2.2.2.2.2.2.2.1 rfl,
   (c8_context_handoff c8g2 7).2.2.2.2.2.2.2.2 5 rfl⟩

/-- C9: singleton registration.  `create` on an empty registry registers the
instance; a second `create` while any instance is registered hits
`invariant(!getDistLockManager(service))` — fatal, not an error return — and
`get` returns the registered instance. -/
theorem c9_singleton_registration (inst j : Nat) :
    DistLockManager.create none inst = InvResult.ok (some inst)
    ∧ DistLockManager.get (some inst) = some inst
    ∧ DistLockManager.create (some j) inst = InvResult.invariantFailure :=
  ⟨rfl, rfl, rfl⟩

/-- C10: release happens exactly once per successful acquisition even when
guards are moved.  (1) Destroying a `ScopedLock` whose `_lockManager` is null
performs no release: the table is returned unchanged.  (2) The `ScopedLock`
move constructor nulls the source's `_lockManager` and copies the fields to
the destination.  (3) The `ScopedDistLock` move constructor nulls the
source's `_lockManager`, its inner guard's `_lockManager`, and its `_opCtx`.
(4) Destroying such a fully moved-from `ScopedDistLock` performs no remote
unlock and no table mutation.  (5) In every reachable state, a live owning
`ScopedLock` for a name implies the `_inProgressMap` still contains an entry
for that name, so the destructor's unchecked `_inProgressMap.find(_ns)`
dereference succeeds. -/
theorem c10_single_release :
    (∀ (sl : ScopedLock) (t : TableF), sl.hasLockManager = false →
        sl.destruct t = some t)
    ∧ (∀ l : ScopedLock, (ScopedLock.moveCtor l).2.hasLockManager = false
        ∧ (ScopedLock.moveCtor l).1 = ⟨l.ns, l.reason, l.hasLockManager⟩)
    ∧ (∀ g : ScopedDistLock, (ScopedDistLock.moveCtor g).2.hasLockManager = false
        ∧ (ScopedDistLock.moveCtor g).2.scopedLock.hasLockManager = false
        ∧ (ScopedDistLock.moveCtor g).2.opCtx = none)
    ∧ (∀ (g : ScopedDistLock) (t : TableF) (r : Nat),
        g.hasLockManager = false → g.scopedLock.hasLockManager = false →
        g.destruct t r = some (t, r))
    ∧ (∀ s, LockReachable s → ∀ i ns reason,
        s.callers.get? i = some (Phase.holding ns reason) →
        ∃ t2, ScopedLock.destruct ⟨ns, reason, true⟩ s.table = some t2) := by
  refine ⟨?_, ?_, ?_, ?_, ?_⟩
  · intro sl t h
    unfold ScopedLock.destruct
    rw [if_neg (by rw [h]; simp)]
  · intro l
    exact ⟨rfl, rfl⟩
  · intro g
    exact ⟨rfl, rfl, rfl⟩
  · intro g t r h1 h2
    unfold ScopedDistLock.destruct ScopedLock.destruct
    rw [h1, h2]
    simp
  · intro s hs i ns reason hi
    have hinv := lockInv_reachable hs ns
    cases hts : s.table ns with
    | none =>
      have h0 := (hinv.1 hts).1
      have hpos : 0 < holdersCount s.callers ns :=
        countP_pos_of_get? hi (by simp)
      omega
    | some e =>
      refine ⟨releaseTable s.table ns e, ?_⟩
      unfold ScopedLock.destruct
      rw [if_pos rfl]
      dsimp only
      rw [hts]

/-- Witness for C10: a moved-from local guard's destruction leaves the empty
table unchanged, and in the reachable state `st1` the holder's destructor
find succeeds. -/
theorem c10_single_release_witness :
    ScopedLock.destruct ⟨"n", "r", false⟩ emptyTable = some emptyTable
    ∧ (∃ t2, ScopedLock.destruct ⟨"n", "create", true⟩ st1.table = some t2) :=
  ⟨c10_single_release.1 ⟨"n", "r", false⟩ emptyTable rfl,
   c10_single_release.2.2.2.2 st1 st1_reachable 0 "n" "create" rfl⟩
